import Mathlib

/-!
# Verification of the prettylog rendering core

A shallow embedding of the memory-bounded buffer pool (`src/pool.go`), the
serializing sink wrapper (`src/write_locker.go`), the entry-writer fragment
protocol (`src/writer.go`, `src/record_info.go`) and the two-pass render
pipeline of `prettylog`, together with proofs of the specified properties.

Machine integers are modelled as `Nat`/`Int` with explicit `% 2 ^ 64`
reduction wherever the Go code performs `uint64` arithmetic that may wrap.
-/

namespace Prettylog

/-! ## Bounded buffer pool (`src/pool.go`) -/

/-- `2 ^ 64`, the modulus of Go's `uint64` arithmetic. -/
def U64 : Nat := 2 ^ 64

/-- Go `uint64` addition (`atomic.Uint64.Add`, and the `+` in `Put`'s
comparison): wraps modulo `2 ^ 64`. -/
def u64add (a b : Nat) : Nat := (a + b) % U64

/-- Go `-uint64(x)`: two's-complement negation modulo `2 ^ 64`. -/
def u64neg (a : Nat) : Nat := (U64 - a % U64) % U64

/-- A `bytes.Buffer`: only its capacity and logical length matter to the
pool. `Reset` sets the length to zero and retains the capacity. -/
structure GoBuffer where
  cap : Nat
  len : Nat
  deriving DecidableEq, Repr

/-- `limitedPool` from `src/pool.go`: a `sync.Pool` of buffers whose total
idle capacity is bounded.  The `sync.Pool` free list is modelled as the list
of currently idle buffers; `currentMemoryBufferUsage` is the atomic `uint64`
counter. -/
structure limitedPool where
  pool : List GoBuffer
  maxMemoryBufferStorage : Nat
  currentMemoryBufferUsage : Nat
  deriving DecidableEq, Repr

/-- `const defaultLimitedPoolSize = 16 * 1024 * 1024` (a Go `int`). -/
def defaultLimitedPoolSize : Int := 16 * 1024 * 1024

/-- `limitedPool.Get`.  `l.pool.Get()` returns some idle buffer chosen by the
`sync.Pool` (or a fresh empty `&bytes.Buffer{}` when it has none to give);
the choice is modelled by the oracle index `k`: the `k`-th idle buffer when
`k` is in range, a fresh zero-capacity buffer otherwise.  The counter is
decremented by the returned buffer's capacity with wrapping `uint64`
arithmetic (`l.currentMemoryBufferUsage.Add(-uint64(buf.Cap()))`). -/
def limitedPool.Get (l : limitedPool) (k : Nat) : GoBuffer × limitedPool :=
  match l.pool.get? k with
  | some buf =>
      (buf, { l with
                pool := l.pool.eraseIdx k
                currentMemoryBufferUsage :=
                  u64add l.currentMemoryBufferUsage (u64neg buf.cap) })
  | none =>
      (⟨0, 0⟩, { l with
                  currentMemoryBufferUsage :=
                    u64add l.currentMemoryBufferUsage (u64neg 0) })

/-- `limitedPool.Put`: `buf.Reset()` (length zero, capacity retained), then
drop the buffer when `l.currentMemoryBufferUsage.Load()+bufCap >
l.maxMemoryBufferStorage` (a wrapping `uint64` sum of the counter and
`bufCap := uint64(buf.Cap())`), otherwise add the capacity to the counter
and return the reset buffer to the free list. -/
def limitedPool.Put (l : limitedPool) (buf : GoBuffer) : limitedPool :=
  if u64add l.currentMemoryBufferUsage (buf.cap % U64) > l.maxMemoryBufferStorage then
    l
  else
    { l with
        currentMemoryBufferUsage := u64add l.currentMemoryBufferUsage (buf.cap % U64)
        pool := { buf with len := 0 } :: l.pool }

/-- `newLimitedPool`: a non-positive ceiling is replaced by
`defaultLimitedPoolSize`; the ceiling is then stored as
`uint64(maxMemoryBufferStorage)`, which is exact (`Int.toNat`) because the
stored value is positive and a Go `int` is below `2 ^ 63`. -/
def newLimitedPool (maxMemoryBufferStorage : Int) : limitedPool :=
  let m : Int :=
    if maxMemoryBufferStorage ≤ 0 then defaultLimitedPoolSize
    else maxMemoryBufferStorage
  { pool := []
    maxMemoryBufferStorage := m.toNat
    currentMemoryBufferUsage := 0 }

/-- One pool operation: `get k` (with `k` the `sync.Pool` choice oracle) or
`put cap len` (releasing a buffer of the given capacity and length). -/
inductive PoolOp where
  | get : Nat → PoolOp
  | put : Nat → Nat → PoolOp
  deriving DecidableEq, Repr

/-- Run a sequence of pool operations. -/
def runOps : limitedPool → List PoolOp → limitedPool
  | l, [] => l
  | l, PoolOp.get k :: ops => runOps (l.Get k).2 ops
  | l, PoolOp.put c n :: ops => runOps (l.Put ⟨c, n⟩) ops

/-- Total capacity of the buffers currently idle in the pool. -/
def idleSum (l : limitedPool) : Nat := (l.pool.map GoBuffer.cap).sum

/-- The pool invariant: the tracked counter equals the idle capacity, which
never exceeds the ceiling. -/
def poolInv (l : limitedPool) : Prop :=
  l.currentMemoryBufferUsage = idleSum l ∧
    idleSum l ≤ l.maxMemoryBufferStorage

/-- Every buffer released during the sequence has a Go-`int` capacity
(below `2 ^ 63`). -/
def opsBounded (ops : List PoolOp) : Prop :=
  ∀ c n, PoolOp.put c n ∈ ops → c < 2 ^ 63

lemma U64_eq : U64 = 18446744073709551616 := by norm_num [U64]

lemma u64add_of_lt {a b : Nat} (h : a + b < U64) : u64add a b = a + b := by
  simpa [u64add] using Nat.mod_eq_of_lt h

lemma u64add_neg_of_le {a b : Nat} (ha : a < U64) (hba : b ≤ a) :
    u64add a (u64neg b) = a - b := by
  have hb : b < U64 := lt_of_le_of_lt hba ha
  rcases Nat.eq_zero_or_pos b with hb0 | hbpos
  · subst hb0
    have h0 : u64neg 0 = 0 := by simp [u64neg]
    simp [u64add, h0, Nat.mod_eq_of_lt ha]
  · have hbmod : b % U64 = b := Nat.mod_eq_of_lt hb
    have hneg : u64neg b = U64 - b := by
      have : U64 - b < U64 := by omega
      simp [u64neg, hbmod, Nat.mod_eq_of_lt this]
    rw [u64add, hneg]
    have hsplit : a + (U64 - b) = (a - b) + U64 := by omega
    rw [hsplit, Nat.add_mod_right]
    exact Nat.mod_eq_of_lt (by omega)

lemma limitedPool.Get_eq_of_some {l : limitedPool} {k : Nat} {buf : GoBuffer}
    (h : l.pool.get? k = some buf) :
    l.Get k =
      (buf, { l with
                pool := l.pool.eraseIdx k
                currentMemoryBufferUsage :=
                  u64add l.currentMemoryBufferUsage (u64neg buf.cap) }) := by
  unfold limitedPool.Get
  rw [h]

lemma limitedPool.Get_eq_of_none {l : limitedPool} {k : Nat}
    (h : l.pool.get? k = none) :
    l.Get k =
      (⟨0, 0⟩, { l with
                  currentMemoryBufferUsage :=
                    u64add l.currentMemoryBufferUsage (u64neg 0) }) := by
  unfold limitedPool.Get
  rw [h]

lemma limitedPool.Put_keep (l : limitedPool) (buf : GoBuffer)
    (hmax : l.maxMemoryBufferStorage < 2 ^ 63)
    (hle : l.currentMemoryBufferUsage + buf.cap ≤ l.maxMemoryBufferStorage) :
    l.Put buf =
      { l with
          pool := ⟨buf.cap, 0⟩ :: l.pool
          currentMemoryBufferUsage := l.currentMemoryBufferUsage + buf.cap } := by
  have hcap : buf.cap < U64 := by rw [U64_eq]; omega
  have hsum : l.currentMemoryBufferUsage + buf.cap < U64 := by rw [U64_eq]; omega
  have hmod : buf.cap % U64 = buf.cap := Nat.mod_eq_of_lt hcap
  have hadd : u64add l.currentMemoryBufferUsage (buf.cap % U64) =
      l.currentMemoryBufferUsage + buf.cap := by
    rw [hmod]; exact u64add_of_lt hsum
  have hnot : ¬ (l.currentMemoryBufferUsage + buf.cap > l.maxMemoryBufferStorage) := by
    omega
  unfold limitedPool.Put
  rw [hadd, if_neg hnot]

lemma limitedPool.Put_drop (l : limitedPool) (buf : GoBuffer)
    (hmax : l.maxMemoryBufferStorage < 2 ^ 63)
    (hu : l.currentMemoryBufferUsage ≤ l.maxMemoryBufferStorage)
    (hc : buf.cap < 2 ^ 63)
    (hgt : l.currentMemoryBufferUsage + buf.cap > l.maxMemoryBufferStorage) :
    l.Put buf = l := by
  have hcap : buf.cap < U64 := by rw [U64_eq]; omega
  have hsum : l.currentMemoryBufferUsage + buf.cap < U64 := by rw [U64_eq]; omega
  have hmod : buf.cap % U64 = buf.cap := Nat.mod_eq_of_lt hcap
  have hadd : u64add l.currentMemoryBufferUsage (buf.cap % U64) =
      l.currentMemoryBufferUsage + buf.cap := by
    rw [hmod]; exact u64add_of_lt hsum
  unfold limitedPool.Put
  rw [hadd, if_pos hgt]

lemma limitedPool.Get_max (l : limitedPool) (k : Nat) :
    (l.Get k).2.maxMemoryBufferStorage = l.maxMemoryBufferStorage := by
  cases h : l.pool.get? k with
  | none => rw [limitedPool.Get_eq_of_none h]
  | some buf => rw [limitedPool.Get_eq_of_some h]

lemma limitedPool.Put_max (l : limitedPool) (buf : GoBuffer) :
    (l.Put buf).maxMemoryBufferStorage = l.maxMemoryBufferStorage := by
  unfold limitedPool.Put
  split <;> rfl

lemma sum_eraseIdx_map :
    ∀ (xs : List GoBuffer) (k : Nat) (b : GoBuffer), xs.get? k = some b →
      ((xs.eraseIdx k).map GoBuffer.cap).sum + b.cap = (xs.map GoBuffer.cap).sum := by
  intro xs
  induction xs with
  | nil => intro k b h; simp at h
  | cons x xs ih =>
      intro k b h
      cases k with
      | zero =>
          simp only [List.get?] at h
          cases h
          simp [List.eraseIdx, Nat.add_comm]
      | succ k =>
          simp only [List.get?] at h
          have := ih k b h
          simp [List.eraseIdx, List.map_cons, List.sum_cons]
          omega

lemma poolInv_Put (l : limitedPool) (buf : GoBuffer)
    (hmax : l.maxMemoryBufferStorage < 2 ^ 63)
    (hc : buf.cap < 2 ^ 63)
    (hinv : poolInv l) : poolInv (l.Put buf) := by
  rcases hinv with ⟨h1, h2⟩
  by_cases hle : l.currentMemoryBufferUsage + buf.cap ≤ l.maxMemoryBufferStorage
  · rw [limitedPool.Put_keep l buf hmax hle]
    have hle' : idleSum l + buf.cap ≤ l.maxMemoryBufferStorage := h1 ▸ hle
    constructor
    · simp [idleSum, h1, Nat.add_comm]
    · simp only [idleSum, List.map_cons, List.sum_cons] at hle' ⊢
      omega
  · push_neg at hle
    rw [limitedPool.Put_drop l buf hmax (h1 ▸ h2) hc hle]
    exact ⟨h1, h2⟩

lemma poolInv_Get (l : limitedPool) (k : Nat)
    (hmax : l.maxMemoryBufferStorage < 2 ^ 63)
    (hinv : poolInv l) : poolInv ((l.Get k).2) := by
  rcases hinv with ⟨h1, h2⟩
  have hu : l.currentMemoryBufferUsage < U64 := by
    rw [U64_eq]; omega
  cases h : l.pool.get? k with
  | none =>
      rw [limitedPool.Get_eq_of_none h]
      have h0 : u64neg 0 = 0 := by simp [u64neg]
      refine ⟨?_, h2⟩
      show u64add l.currentMemoryBufferUsage (u64neg 0) = idleSum l
      rw [h0, u64add]
      simpa [Nat.mod_eq_of_lt hu] using h1
  | some buf =>
      rw [limitedPool.Get_eq_of_some h]
      have hsum := sum_eraseIdx_map l.pool k buf h
      have hble : buf.cap ≤ l.currentMemoryBufferUsage := by
        rw [h1]; simp only [idleSum]; omega
      constructor
      · show u64add l.currentMemoryBufferUsage (u64neg buf.cap) = _
        rw [u64add_neg_of_le hu hble, h1]
        simp only [idleSum] at hsum ⊢
        omega
      · simp only [idleSum] at h2 hsum ⊢
        omega

lemma runOps_inv :
    ∀ (ops : List PoolOp) (l : limitedPool),
      l.maxMemoryBufferStorage < 2 ^ 63 → opsBounded ops → poolInv l →
        poolInv (runOps l ops) := by
  intro ops
  induction ops with
  | nil => intro l _ _ hinv; exact hinv
  | cons op ops ih =>
      intro l hmax hb hinv
      cases op with
      | get k =>
          exact ih _ ((limitedPool.Get_max l k).symm ▸ hmax)
            (fun c n h => hb c n (List.mem_cons_of_mem _ h))
            (poolInv_Get l k hmax hinv)
      | put c n =>
          have hc : c < 2 ^ 63 := hb c n (List.mem_cons_self _ _)
          exact ih _ ((limitedPool.Put_max l ⟨c, n⟩).symm ▸ hmax)
            (fun c' n' h => hb c' n' (List.mem_cons_of_mem _ h))
            (poolInv_Put l ⟨c, n⟩ hmax hc hinv)

lemma runOps_max :
    ∀ (ops : List PoolOp) (l : limitedPool),
      (runOps l ops).maxMemoryBufferStorage = l.maxMemoryBufferStorage := by
  intro ops
  induction ops with
  | nil => intro l; rfl
  | cons op ops ih =>
      intro l
      cases op with
      | get k => rw [runOps, ih, limitedPool.Get_max]
      | put c n => rw [runOps, ih, limitedPool.Put_max]

lemma newLimitedPool_max_lt (C : Int) (hC : C < 2 ^ 63) :
    (newLimitedPool C).maxMemoryBufferStorage < 2 ^ 63 := by
  simp only [newLimitedPool, defaultLimitedPoolSize]
  split <;> omega

lemma newLimitedPool_inv (C : Int) : poolInv (newLimitedPool C) := by
  constructor <;> simp [newLimitedPool, idleSum, poolInv]

/-- **C1** Pool ceiling invariant: running any sequence of `Get`/`Put`
operations from a freshly constructed `limitedPool` keeps the sum of the
capacities of the idle pooled buffers at or below the effective ceiling,
and `currentMemoryBufferUsage` equals that idle capacity (so the counter
never exceeds `maxMemoryBufferStorage` and bounds the idle capacity). -/
theorem c1_pool_ceiling_invariant (C : Int) (ops : List PoolOp)
    (hC : C < 2 ^ 63) (hops : opsBounded ops) :
    idleSum (runOps (newLimitedPool C) ops) ≤ (newLimitedPool C).maxMemoryBufferStorage ∧
    (runOps (newLimitedPool C) ops).currentMemoryBufferUsage =
      idleSum (runOps (newLimitedPool C) ops) ∧
    (runOps (newLimitedPool C) ops).currentMemoryBufferUsage ≤
      (newLimitedPool C).maxMemoryBufferStorage := by
  have h := runOps_inv ops (newLimitedPool C) (newLimitedPool_max_lt C hC) hops
    (newLimitedPool_inv C)
  rcases h with ⟨h1, h2⟩
  rw [runOps_max ops (newLimitedPool C)] at h2
  exact ⟨h2, h1, by omega⟩

theorem c1_pool_ceiling_invariant_witness :
    idleSum (runOps (newLimitedPool 10) [PoolOp.put 8 3, PoolOp.put 4 0, PoolOp.get 0]) ≤
      (newLimitedPool 10).maxMemoryBufferStorage :=
  (c1_pool_ceiling_invariant 10 [PoolOp.put 8 3, PoolOp.put 4 0, PoolOp.get 0]
    (by norm_num)
    (by
      intro c n h
      simp only [List.mem_cons, List.not_mem_nil, or_false, PoolOp.put.injEq,
        reduceCtorEq] at h
      rcases h with ⟨rfl, rfl⟩ | ⟨rfl, rfl⟩ <;> norm_num)).1

/-- **C2** Release retention rule: `Put(buf)` resets the buffer (length zero,
capacity retained) and keeps it exactly when
`currentMemoryBufferUsage + buf.Cap() ≤ maxMemoryBufferStorage`, in which
case the tracked usage grows by exactly `buf.Cap()`; otherwise the pool is
left entirely unchanged (buffer dropped, usage untouched). -/
theorem c2_put_retention (l : limitedPool) (buf : GoBuffer)
    (hmax : l.maxMemoryBufferStorage < 2 ^ 63)
    (hu : l.currentMemoryBufferUsage ≤ l.maxMemoryBufferStorage)
    (hc : buf.cap < 2 ^ 63) :
    if l.currentMemoryBufferUsage + buf.cap ≤ l.maxMemoryBufferStorage then
      l.Put buf =
        { l with
            pool := ⟨buf.cap, 0⟩ :: l.pool
            currentMemoryBufferUsage := l.currentMemoryBufferUsage + buf.cap }
    else l.Put buf = l := by
  by_cases h : l.currentMemoryBufferUsage + buf.cap ≤ l.maxMemoryBufferStorage
  · rw [if_pos h]
    exact limitedPool.Put_keep l buf hmax h
  · rw [if_neg h]
    exact limitedPool.Put_drop l buf hmax hu hc (by omega)

theorem c2_put_retention_witness :
    ((newLimitedPool 10).Put ⟨4, 7⟩).pool = [⟨4, 0⟩] ∧
    ((newLimitedPool 10).Put ⟨4, 7⟩).currentMemoryBufferUsage = 4 := by
  have h := c2_put_retention (newLimitedPool 10) ⟨4, 7⟩ (by decide) (by decide)
    (by decide)
  have hc : (newLimitedPool 10).currentMemoryBufferUsage + (GoBuffer.mk 4 7).cap ≤
      (newLimitedPool 10).maxMemoryBufferStorage := by decide
  rw [if_pos hc] at h
  rw [h]
  exact ⟨rfl, rfl⟩

/-- **C6** Default ceiling: `newLimitedPool n` with `n ≤ 0` has effective
ceiling exactly `16 * 1024 * 1024` bytes; with `0 < n` the effective ceiling
is `n`. -/
theorem c6_default_ceiling (n : Int) :
    (n ≤ 0 → (newLimitedPool n).maxMemoryBufferStorage = 16 * 1024 * 1024) ∧
    (0 < n → (newLimitedPool n).maxMemoryBufferStorage = n.toNat) := by
  constructor
  · intro h
    simp [newLimitedPool, defaultLimitedPoolSize, h]
  · intro h
    have h' : ¬ n ≤ 0 := by omega
    simp [newLimitedPool, h']

theorem c6_default_ceiling_witness :
    (newLimitedPool (-5)).maxMemoryBufferStorage = 16 * 1024 * 1024 ∧
    (newLimitedPool 7).maxMemoryBufferStorage = 7 :=
  ⟨(c6_default_ceiling (-5)).1 (by norm_num),
   by simpa using (c6_default_ceiling 7).2 (by norm_num)⟩

/-- **C7** (original claim refuted): there is a reachable pool state and a
buffer with `buf.Cap() ≤ ceiling` such that `Put(buf)` leaves the tracked
usage unchanged instead of increasing it by `buf.Cap()`: with ceiling `10`,
after pooling a capacity-8 buffer, putting a capacity-4 buffer (4 ≤ 10)
changes nothing because `8 + 4 > 10`. -/
theorem c7_counterexample :
    4 ≤ ((newLimitedPool 10).Put ⟨8, 0⟩).maxMemoryBufferStorage ∧
    ((newLimitedPool 10).Put ⟨8, 0⟩).currentMemoryBufferUsage = 8 ∧
    (((newLimitedPool 10).Put ⟨8, 0⟩).Put ⟨4, 0⟩).currentMemoryBufferUsage = 8 := by
  refine ⟨by decide, by decide, by decide⟩

/-- **C7** (amended) Pool accounting: immediately after `Put(buf)` where
`currentMemoryBufferUsage + buf.Cap() ≤ ceiling` and no concurrent activity,
the tracked usage increases by exactly `buf.Cap()`; the next `Get` that
returns that same buffer (the `sync.Pool` hands back the just-pooled buffer,
index `0`) decreases it by exactly `buf.Cap()`. -/
theorem c7_pool_accounting (l : limitedPool) (buf : GoBuffer)
    (hmax : l.maxMemoryBufferStorage < 2 ^ 63)
    (hle : l.currentMemoryBufferUsage + buf.cap ≤ l.maxMemoryBufferStorage) :
    (l.Put buf).currentMemoryBufferUsage = l.currentMemoryBufferUsage + buf.cap ∧
    ((l.Put buf).Get 0).1 = ⟨buf.cap, 0⟩ ∧
    ((l.Put buf).Get 0).2.currentMemoryBufferUsage = l.currentMemoryBufferUsage := by
  rw [limitedPool.Put_keep l buf hmax hle]
  have hget :
      (GoBuffer.mk buf.cap 0 :: l.pool).get? 0 = some (GoBuffer.mk buf.cap 0) := rfl
  rw [limitedPool.Get_eq_of_some hget]
  refine ⟨rfl, rfl, ?_⟩
  show u64add (l.currentMemoryBufferUsage + buf.cap) (u64neg buf.cap) = _
  have hu : l.currentMemoryBufferUsage + buf.cap < U64 := by rw [U64_eq]; omega
  rw [u64add_neg_of_le hu (Nat.le_add_left _ _)]
  omega

theorem c7_pool_accounting_witness :
    ((newLimitedPool 10).Put ⟨4, 3⟩).currentMemoryBufferUsage = 0 + 4 ∧
    (((newLimitedPool 10).Put ⟨4, 3⟩).Get 0).1 = ⟨4, 0⟩ ∧
    (((newLimitedPool 10).Put ⟨4, 3⟩).Get 0).2.currentMemoryBufferUsage = 0 :=
  c7_pool_accounting (newLimitedPool 10) ⟨4, 3⟩ (by decide) (by decide)

/-! ## Serializing sink wrapper (`src/write_locker.go`) -/

/-- The universe of Go `io.Writer` values seen by `WrapWriteLocker`:
a plain writer (implements only `io.Writer`), the package's own
`writeLocker` wrapper around some writer, or an external value that already
implements the full `WriteLocker` (write + lock/unlock) interface.  The
`Nat` payloads distinguish instances; mutex state is irrelevant to the
wrapping logic. -/
inductive GoWriter where
  | plain : Nat → GoWriter
  | wrapped : GoWriter → GoWriter
  | externalWL : Nat → GoWriter
  deriving DecidableEq, Repr

/-- The Go type assertion `w.(WriteLocker)`: succeeds exactly for values
whose dynamic type implements both `io.Writer` and `sync.Locker`. -/
def implementsWriteLocker : GoWriter → Bool
  | GoWriter.plain _ => false
  | GoWriter.wrapped _ => true
  | GoWriter.externalWL _ => true

/-- `WrapWriteLocker`: return the writer unchanged when it already
implements `WriteLocker`, otherwise wrap it in a fresh `writeLocker`. -/
def WrapWriteLocker (w : GoWriter) : GoWriter :=
  if implementsWriteLocker w then w else GoWriter.wrapped w

/-- `writeLocker.Unwrap`: the wrapped writer of a `writeLocker` value
(`none` models calling it on a value that is not the package's wrapper). -/
def writeLocker.Unwrap : GoWriter → Option GoWriter
  | GoWriter.wrapped w => some w
  | _ => none

/-- **C9** Idempotent sink wrapping: a writer already implementing
`WriteLocker` is returned identically, wrapping is idempotent for every
writer, and a plain writer gets a fresh wrapper whose `Unwrap` returns the
original writer. -/
theorem c9_idempotent_wrap (w : GoWriter) :
    (implementsWriteLocker w = true → WrapWriteLocker w = w) ∧
    WrapWriteLocker (WrapWriteLocker w) = WrapWriteLocker w ∧
    (implementsWriteLocker w = false →
      WrapWriteLocker w = GoWriter.wrapped w ∧
      writeLocker.Unwrap (WrapWriteLocker w) = some w) := by
  refine ⟨fun h => ?_, ?_, fun h => ?_⟩
  · simp [WrapWriteLocker, h]
  · cases w <;> rfl
  · simp [WrapWriteLocker, h, writeLocker.Unwrap]

theorem c9_idempotent_wrap_witness :
    WrapWriteLocker (GoWriter.externalWL 0) = GoWriter.externalWL 0 ∧
    writeLocker.Unwrap (WrapWriteLocker (GoWriter.plain 0)) = some (GoWriter.plain 0) :=
  ⟨(c9_idempotent_wrap (GoWriter.externalWL 0)).1 rfl,
   ((c9_idempotent_wrap (GoWriter.plain 0)).2.2 rfl).2⟩

/-! ## Record data and the fragment protocol (`src/record_info.go`, `src/writer.go`)

`RecordData.Buffer` is the shared `*bytes.Buffer`, modelled as the string of
bytes written so far; formatters and stylers observe the buffer state at the
moment they are invoked, exactly as in Go where they receive a pointer to
the live buffer.  The opaque fields (`Context`, `Frame`, `HandlerOptions`)
carry no information used by the verified code and are omitted. -/

/-- The parts of a `slog.Record` the verified fragments can observe. -/
structure SlogRecord where
  level : Int
  message : String
  deriving DecidableEq, Repr

/-- `RecordData` from `src/record_info.go` (the fields relevant to the
verified code). -/
structure RecordData where
  Record : SlogRecord
  PackageName : String
  Color : Bool
  KeyFieldLength : Int
  Buffer : String
  deriving DecidableEq, Repr

/-- `type Formatter func(info RecordData) string`. -/
def Formatter : Type := RecordData → String

/-- `type Styler func(info RecordData, formatted string) (styled string)`. -/
def Styler : Type := RecordData → String → String

/-- `Static(key)` from `src/formatter.go`: a formatter returning a fixed
string. -/
def Static (key : String) : Formatter := fun _ => key

/-- The `CommonWriter` data a `PrefixFunc` can observe (Go passes the whole
`*CommonWriter`; the prefix functions in the package only read these
fields). -/
structure CommonWriterBase where
  Key : Formatter
  Valuer : Formatter
  KeyStyler : Styler
  ValueStyler : Styler

/-- `CommonWriter` from `src/writer.go`. -/
structure CommonWriter where
  Key : Formatter
  Valuer : Formatter
  Prefix : RecordData → CommonWriterBase → String
  KeyStyler : Styler
  ValueStyler : Styler

/-- The observable fields handed to the `Prefix` function. -/
def CommonWriter.base (cw : CommonWriter) : CommonWriterBase :=
  ⟨cw.Key, cw.Valuer, cw.KeyStyler, cw.ValueStyler⟩

/-- `DefaultPrefix` from `src/writer.go`: empty when the shared buffer is
empty, `"\n"` when this writer's key is non-empty, `" "` otherwise. -/
def DefaultPrefix (info : RecordData) (this : CommonWriterBase) : String :=
  if info.Buffer.length = 0 then ""
  else if this.Key info ≠ "" then "\n"
  else " "

/-- `CommonWriter.KeyLen`: `0` for an empty key, the styled key's length
when color is on, the plain key's length otherwise. -/
def CommonWriter.KeyLen (cw : CommonWriter) (info : RecordData) : Nat :=
  if cw.Key info = "" then 0
  else if info.Color then (cw.KeyStyler info (cw.Key info)).length
  else (cw.Key info).length

/-- `s` repeated `n` times (the total of `strings.Repeat` for a
non-negative count). -/
def repeatString : String → Nat → String
  | _, 0 => ""
  | s, n + 1 => s ++ repeatString s n

/-- `strings.Repeat`: panics (`none`) on a negative count. -/
def stringsRepeat (s : String) (count : Int) : Option String :=
  if count < 0 then none else some (repeatString s count.toNat)

/-- The record data as the formatters and stylers inside
`CommonWriter.Write` observe it: the prefix has already been written to the
shared buffer (`info.Buffer.WriteString(cw.Prefix(info, cw))` precedes
`cw.Key(info)` and the styler calls). -/
def CommonWriter.infoAfterPrefix (cw : CommonWriter) (info : RecordData) : RecordData :=
  { info with Buffer := info.Buffer ++ cw.Prefix info cw.base }

/-- The key text `CommonWriter.Write` writes: styled exactly when
`info.Color` and the key is non-empty. -/
def CommonWriter.writtenKey (cw : CommonWriter) (info : RecordData) : String :=
  if info.Color then
    if cw.Key (cw.infoAfterPrefix info) ≠ "" then
      cw.KeyStyler (cw.infoAfterPrefix info) (cw.Key (cw.infoAfterPrefix info))
    else cw.Key (cw.infoAfterPrefix info)
  else cw.Key (cw.infoAfterPrefix info)

/-- The value text `CommonWriter.Write` writes: styled exactly when
`info.Color`. -/
def CommonWriter.writtenValue (cw : CommonWriter) (info : RecordData) : String :=
  if info.Color then
    cw.ValueStyler (cw.infoAfterPrefix info) (cw.Valuer (cw.infoAfterPrefix info))
  else cw.Valuer (cw.infoAfterPrefix info)

/-- `CommonWriter.Write`: append the prefix, the (possibly styled) key,
`strings.Repeat(" ", info.KeyFieldLength-len(key)+1)` and the (possibly
styled) value to the shared buffer.  The result is the new buffer contents;
`none` models the `strings.Repeat` panic on a negative count. -/
def CommonWriter.Write (cw : CommonWriter) (info : RecordData) : Option String :=
  match stringsRepeat " "
      (info.KeyFieldLength - ((cw.writtenKey info).length : Int) + 1) with
  | none => none
  | some pad =>
      some ((cw.infoAfterPrefix info).Buffer ++ cw.writtenKey info ++ pad ++
        cw.writtenValue info)

/-- The written key's length always agrees with `KeyLen` evaluated on the
record data as `Write` observes it (prefix already in the buffer): both
sides use the styled key exactly when `Color` is set and the key is
non-empty. -/
lemma writtenKey_length (cw : CommonWriter) (info : RecordData) :
    (cw.writtenKey info).length = cw.KeyLen (cw.infoAfterPrefix info) := by
  have hColor : (cw.infoAfterPrefix info).Color = info.Color := rfl
  unfold CommonWriter.writtenKey CommonWriter.KeyLen
  rw [hColor]
  by_cases hk : cw.Key (cw.infoAfterPrefix info) = ""
  · cases hc : info.Color <;> simp [hk, hc]
  · cases hc : info.Color <;> simp [hk, hc]

/-- `KeyLen` only depends on the buffer through the `Key` formatter and the
`KeyStyler`; when both ignore the buffer contents, so does `KeyLen`. -/
lemma KeyLen_buffer_insensitive (cw : CommonWriter) (info : RecordData) (b : String)
    (hKey : ∀ b', cw.Key { info with Buffer := b' } = cw.Key info)
    (hSty : ∀ b' s, cw.KeyStyler { info with Buffer := b' } s = cw.KeyStyler info s) :
    cw.KeyLen { info with Buffer := b } = cw.KeyLen info := by
  unfold CommonWriter.KeyLen
  rw [hKey b]
  by_cases hk : cw.Key info = ""
  · simp [hk]
  · simp only [hk, if_neg hk, hSty b]

/-- **C8** Prefix policy: `DefaultPrefix(info, w)` is empty when the shared
buffer is empty, a single newline when the buffer is non-empty and the
writer's key is non-empty, and a single space when the buffer is non-empty
and the key is empty. -/
theorem c8_default_prefix_policy (info : RecordData) (w : CommonWriterBase) :
    (info.Buffer.length = 0 → DefaultPrefix info w = "") ∧
    (info.Buffer.length ≠ 0 → w.Key info ≠ "" → DefaultPrefix info w = "\n") ∧
    (info.Buffer.length ≠ 0 → w.Key info = "" → DefaultPrefix info w = " ") :=
  ⟨fun h => by simp [DefaultPrefix, h],
   fun h hk => by simp [DefaultPrefix, h, hk],
   fun h hk => by simp [DefaultPrefix, h, hk]⟩

/-- A styler that leaves the text unchanged. -/
def idStyler : Styler := fun _ s => s

/-- Concrete record data with a non-empty buffer, used by the witnesses. -/
def sampleInfo : RecordData := ⟨⟨0, ""⟩, "", false, 0, "x"⟩

/-- A concrete writer base with the key `"Time"`. -/
def sampleKeyedBase : CommonWriterBase := ⟨Static "Time", Static "v", idStyler, idStyler⟩

theorem c8_default_prefix_policy_witness :
    DefaultPrefix sampleInfo sampleKeyedBase = "\n" :=
  (c8_default_prefix_policy sampleInfo sampleKeyedBase).2.1 (by decide) (by decide)

/-- A writer whose key formatter reads the shared buffer: it reports an
empty key on an empty buffer but writes the key `"K"` once the prefix has
been written. -/
def cexWriter : CommonWriter :=
  { Key := fun i => if i.Buffer.length = 0 then "" else "K"
    Valuer := Static "v"
    Prefix := fun _ _ => "p"
    KeyStyler := idStyler
    ValueStyler := idStyler }

/-- Record data on which `cexWriter` misreports its key width. -/
def cexInfo : RecordData := ⟨⟨0, ""⟩, "", false, 1, ""⟩

/-- **C5** (original claim refuted): a `CommonWriter` whose key formatter
inspects the shared buffer writes a key (`"K"`, one byte) whose length
differs from `KeyLen(info)` (which is `0`): `Write` appends the prefix to
the shared buffer before re-evaluating the key formatter, so the two calls
observe different buffer states. -/
theorem c5_counterexample :
    cexWriter.Write cexInfo = some "pK v" ∧
    cexWriter.writtenKey cexInfo = "K" ∧
    cexWriter.KeyLen cexInfo = 0 ∧
    (cexWriter.writtenKey cexInfo).length ≠ cexWriter.KeyLen cexInfo := by
  refine ⟨?_, ?_, ?_, ?_⟩ <;> decide

/-- **C5** (amended) Width-render consistency: the key text
`CommonWriter.Write(info)` appends has byte length equal to `KeyLen`
evaluated at `info` with the prefix already appended to the buffer; such a
key that is empty yields `KeyLen` `0` and an empty written key; and
whenever the writer's `Key` and `KeyStyler` do not depend on the buffer
contents, the length equals `KeyLen(info)` itself, as originally claimed
(styled key when `info.Color`, plain key otherwise, on both sides). -/
theorem c5_width_render_consistency (cw : CommonWriter) (info : RecordData) :
    (cw.writtenKey info).length = cw.KeyLen (cw.infoAfterPrefix info) ∧
    (cw.Key (cw.infoAfterPrefix info) = "" →
      cw.KeyLen (cw.infoAfterPrefix info) = 0 ∧ cw.writtenKey info = "") ∧
    ((∀ b, cw.Key { info with Buffer := b } = cw.Key info) →
     (∀ b s, cw.KeyStyler { info with Buffer := b } s = cw.KeyStyler info s) →
      (cw.writtenKey info).length = cw.KeyLen info) := by
  refine ⟨writtenKey_length cw info, fun hk => ⟨?_, ?_⟩, fun hKey hSty => ?_⟩
  · simp [CommonWriter.KeyLen, hk]
  · simp [CommonWriter.writtenKey, hk]
  · rw [writtenKey_length cw info]
    show cw.KeyLen { info with Buffer := info.Buffer ++ cw.Prefix info cw.base } =
      cw.KeyLen info
    exact KeyLen_buffer_insensitive cw info _ hKey hSty

/-- A concrete buffer-insensitive writer with the static key `"Time"`. -/
def sampleWriter : CommonWriter :=
  { Key := Static "Time"
    Valuer := Static "v"
    Prefix := fun _ _ => "\n"
    KeyStyler := idStyler
    ValueStyler := idStyler }

theorem c5_width_render_consistency_witness :
    (sampleWriter.writtenKey sampleInfo).length = sampleWriter.KeyLen sampleInfo :=
  (c5_width_render_consistency sampleWriter sampleInfo).2.2
    (fun _ => rfl) (fun _ _ => rfl)

lemma Write_eq_none_iff (cw : CommonWriter) (info : RecordData) :
    cw.Write info = none ↔
      info.KeyFieldLength - ((cw.writtenKey info).length : Int) + 1 < 0 := by
  unfold CommonWriter.Write stringsRepeat
  by_cases hn :
      info.KeyFieldLength - ((cw.writtenKey info).length : Int) + 1 < 0 <;>
    simp [hn]

lemma Write_eq_some (cw : CommonWriter) (info : RecordData)
    (h : ¬ info.KeyFieldLength - ((cw.writtenKey info).length : Int) + 1 < 0) :
    cw.Write info = some ((cw.infoAfterPrefix info).Buffer ++ cw.writtenKey info ++
      repeatString " "
        (info.KeyFieldLength - ((cw.writtenKey info).length : Int) + 1).toNat ++
      cw.writtenValue info) := by
  unfold CommonWriter.Write stringsRepeat
  simp [h]

/-- **C10** Padding safety: `Write` panics (returns `none`) exactly when
`info.KeyFieldLength + 1 < len(key)` for the key it writes; otherwise it
appends exactly the prefix, the key, `KeyFieldLength - len(key) + 1` spaces
and the value; and the panic branch is unreachable whenever
`KeyFieldLength` is at least this writer's `KeyLen` (as the pipeline's
maximum over all writers is). -/
theorem c10_padding_safety (cw : CommonWriter) (info : RecordData) :
    (cw.Write info = none ↔
      info.KeyFieldLength + 1 < ((cw.writtenKey info).length : Int)) ∧
    (((cw.writtenKey info).length : Int) ≤ info.KeyFieldLength + 1 →
      cw.Write info = some ((cw.infoAfterPrefix info).Buffer ++ cw.writtenKey info ++
        repeatString " "
          (info.KeyFieldLength - ((cw.writtenKey info).length : Int) + 1).toNat ++
        cw.writtenValue info)) ∧
    ((cw.KeyLen (cw.infoAfterPrefix info) : Int) ≤ info.KeyFieldLength →
      cw.Write info ≠ none) := by
  refine ⟨?_, fun h => ?_, fun h => ?_⟩
  · rw [Write_eq_none_iff cw info]
    omega
  · exact Write_eq_some cw info (by omega)
  · rw [Ne, Write_eq_none_iff cw info]
    rw [← writtenKey_length cw info] at h
    omega

/-- Record data with `KeyFieldLength` 10 and an empty buffer. -/
def paddedInfo : RecordData := ⟨⟨0, ""⟩, "", false, 10, ""⟩

theorem c10_padding_safety_witness : sampleWriter.Write paddedInfo ≠ none :=
  (c10_padding_safety sampleWriter paddedInfo).2.2 (by decide)

/-! ## Render pipeline (`Handler.Handle`, pretty path)

The interface below is `EntryWriter` from `src/writer.go`; a general entry
writer observes the record data (including the shared buffer contents) and
rewrites the buffer.  The two-pass pipeline itself is not among the
retrieved sources (only older revisions of `handler.go` and the handler
tests are), so it is modelled from the spec, §4.4. -/

/-- The `EntryWriter` interface from `src/writer.go`: report the rendered
key width, then render.  A writer's `Write` receives the record data (whose
`Buffer` holds the bytes written so far) and produces the new buffer
contents. -/
structure EntryWriter where
  KeyLen : RecordData → Int
  Write : RecordData → String

/-- The handler state the pretty path depends on: its registered entry
writers, in registration order. -/
structure Handler where
  writers : List EntryWriter

/-- The record data for pass 1: `KeyFieldLength` is zero (not yet known)
and the freshly acquired buffer is empty. -/
def initialInfo (base : RecordData) : RecordData :=
  { base with Buffer := "", KeyFieldLength := 0 }

/-- Modelled from the spec: pass 1 of the missing `Handler.Handle` pretty
path invokes `KeyLen` on every registered writer, in registration order,
with `KeyFieldLength` still zero, and tracks the maximum observed value. -/
def measuredWidth (ws : List EntryWriter) (base : RecordData) : Int :=
  (ws.map (fun w => w.KeyLen (initialInfo base))).foldl max 0

/-- Modelled from the spec: pass 2 of the missing `Handler.Handle` pretty
path invokes `Write` on every registered writer, in the same registration
order, passing the pass-1 maximum as `KeyFieldLength` and threading the
shared buffer through the calls.  Returns the record data passed to each
`Write` call (in call order) together with the final buffer contents. -/
def renderPass : List EntryWriter → RecordData → Int → String → List RecordData × String
  | [], _, _, buf => ([], buf)
  | w :: ws, base, fl, buf =>
      ({ base with Buffer := buf, KeyFieldLength := fl } ::
          (renderPass ws base fl
            (w.Write { base with Buffer := buf, KeyFieldLength := fl })).1,
        (renderPass ws base fl
          (w.Write { base with Buffer := buf, KeyFieldLength := fl })).2)

/-- An observable action on the serializing sink. -/
inductive SinkEvent where
  | lock : SinkEvent
  | write : String → SinkEvent
  | unlock : SinkEvent
  deriving DecidableEq, Repr

/-- The observable outcome of one `Handler.Handle` call on the pretty
path. -/
structure HandleResult where
  fieldLength : Int
  writeCalls : List RecordData
  output : String
  sinkEvents : List SinkEvent
  error : Option String
  deriving DecidableEq

/-- Modelled from the spec: the missing `Handler.Handle` pretty path.
Acquire an empty buffer, negotiate the key width (pass 1), render every
writer (pass 2), then flush: when the buffer is empty no I/O happens and
the call succeeds; otherwise the sink is locked, the whole buffer is copied
to it, the sink is unlocked, and the sink's write error (`sink` applied to
the copied bytes) is returned verbatim. -/
def Handler.Handle (h : Handler) (base : RecordData)
    (sink : String → Option String) : HandleResult :=
  if (renderPass h.writers base (measuredWidth h.writers base) "").2 = "" then
    ⟨measuredWidth h.writers base,
      (renderPass h.writers base (measuredWidth h.writers base) "").1,
      (renderPass h.writers base (measuredWidth h.writers base) "").2, [], none⟩
  else
    ⟨measuredWidth h.writers base,
      (renderPass h.writers base (measuredWidth h.writers base) "").1,
      (renderPass h.writers base (measuredWidth h.writers base) "").2,
      [SinkEvent.lock,
        SinkEvent.write (renderPass h.writers base (measuredWidth h.writers base) "").2,
        SinkEvent.unlock],
      sink (renderPass h.writers base (measuredWidth h.writers base) "").2⟩

lemma renderPass_keyFieldLengths :
    ∀ (ws : List EntryWriter) (base : RecordData) (fl : Int) (buf : String),
      (renderPass ws base fl buf).1.map RecordData.KeyFieldLength =
        List.replicate ws.length fl := by
  intro ws
  induction ws with
  | nil => intro base fl buf; rfl
  | cons w ws ih =>
      intro base fl buf
      simp [renderPass, List.replicate_succ, ih]

lemma Handle_fieldLength (h : Handler) (base : RecordData)
    (sink : String → Option String) :
    (h.Handle base sink).fieldLength = measuredWidth h.writers base := by
  unfold Handler.Handle
  split <;> rfl

lemma Handle_writeCalls (h : Handler) (base : RecordData)
    (sink : String → Option String) :
    (h.Handle base sink).writeCalls =
      (renderPass h.writers base (measuredWidth h.writers base) "").1 := by
  unfold Handler.Handle
  split <;> rfl

lemma Handle_output (h : Handler) (base : RecordData)
    (sink : String → Option String) :
    (h.Handle base sink).output =
      (renderPass h.writers base (measuredWidth h.writers base) "").2 := by
  unfold Handler.Handle
  split <;> rfl

/-- **C3** Width negotiation: on the pretty path, `Handle` computes the
field length as the maximum over `KeyLen` of every registered writer,
queried in registration order on the pass-1 record data, and every
registered writer's `Write` call (one per writer, in the same order)
receives exactly that maximum as `KeyFieldLength`. -/
theorem c3_width_negotiation (h : Handler) (base : RecordData)
    (sink : String → Option String) :
    (h.Handle base sink).fieldLength =
      (h.writers.map (fun w => w.KeyLen (initialInfo base))).foldl max 0 ∧
    (h.Handle base sink).writeCalls.map RecordData.KeyFieldLength =
      List.replicate h.writers.length (h.Handle base sink).fieldLength ∧
    (h.Handle base sink).writeCalls.length = h.writers.length := by
  refine ⟨Handle_fieldLength h base sink, ?_, ?_⟩
  · rw [Handle_writeCalls, Handle_fieldLength, renderPass_keyFieldLengths]
  · have := renderPass_keyFieldLengths h.writers base (measuredWidth h.writers base) ""
    have hlen := congrArg List.length this
    simpa [Handle_writeCalls] using hlen

/-- **C4** Flush and error propagation: when the shared buffer is empty
after all fragments ran, nothing touches the sink and `Handle` returns no
error; when it is non-empty, `Handle` locks the sink, writes the entire
buffer, unlocks, and returns the sink's write error verbatim. -/
theorem c4_flush_and_error (h : Handler) (base : RecordData)
    (sink : String → Option String) :
    ((h.Handle base sink).output = "" →
      (h.Handle base sink).sinkEvents = [] ∧ (h.Handle base sink).error = none) ∧
    ((h.Handle base sink).output ≠ "" →
      (h.Handle base sink).sinkEvents =
        [SinkEvent.lock, SinkEvent.write (h.Handle base sink).output,
          SinkEvent.unlock] ∧
      (h.Handle base sink).error = sink (h.Handle base sink).output) := by
  unfold Handler.Handle
  by_cases hb : (renderPass h.writers base (measuredWidth h.writers base) "").2 = ""
  · rw [if_pos hb]
    exact ⟨fun _ => ⟨rfl, rfl⟩, fun hne => absurd hb hne⟩
  · rw [if_neg hb]
    exact ⟨fun he => absurd he hb, fun _ => ⟨rfl, rfl⟩⟩

/-- A writer that appends the fixed text `"test"`, as in the handler
tests. -/
def testEntryWriter : EntryWriter :=
  ⟨fun _ => 0, fun i => i.Buffer ++ "test"⟩

/-- A sink whose write always fails with a fixed error. -/
def failingSink : String → Option String := fun _ => some "sink error"

theorem c4_flush_and_error_witness :
    (Handler.Handle ⟨[testEntryWriter]⟩ paddedInfo failingSink).error =
      some "sink error" :=
  ((c4_flush_and_error ⟨[testEntryWriter]⟩ paddedInfo failingSink).2 (by decide)).2

end Prettylog
